import Mathlib

/-!
Shallow embedding of the CHIP-8 interpreter core (`src/chip8.rs`) and proofs
about its instruction semantics.

Modelling conventions:
* `u8` / `u16` machine values are `Nat`s; wrapping arithmetic is written with
  an explicit `% 256` (resp. `% 65536`) exactly where the Rust code wraps
  (`Wrapping<u8>` operations). Theorems carry `< 256` hypotheses where the
  Rust type system guarantees 8-bit values.
* Bit masks of the source are translated to div/mod form:
  `op & 0xF000 >> 12` is `op / 4096 % 16`, `op & 0x0FFF` is `op % 4096`,
  `op & 0x0F00 >> 8` is `op / 256 % 16`, `op & 0x00F0 >> 4` is `op / 16 % 16`,
  `op & 0x00FF` is `op % 256`, `op & 0x000F` is `op % 16`.
* Fixed-size arrays (`memory : [u8; 4096]`, `v : [u8; 16]`, `gfx : [u8; 2048]`,
  `keys : [u8; 16]`) are total functions `Nat → Nat`; a Rust indexing
  expression that can be out of bounds is guarded and the out-of-bounds case
  surfaces as `Fault.indexOutOfBounds` (a Rust panic aborts the machine).
* The return stack `Vec<u16>` (created `with_capacity(16)`, so capacity 16)
  is a `List Nat` whose head is the top; `push` is guarded by
  `len < capacity` in the source and panics ("Literal stack overflow!")
  otherwise, modelled as `Fault.stackOverflow`; `pop` on the empty stack is
  `.expect(...)`, modelled as `Fault.stackUnderflow`.
* The RNG (`rng.gen::<u8>()`, used only by opcode `0xCXNN`) is modelled by a
  state field `rand` holding the byte the generator would return.
-/

/-- The ways a cycle of the Rust interpreter can panic (abort). -/
inductive Fault where
  | stackOverflow
  | stackUnderflow
  | indexOutOfBounds
deriving DecidableEq, Repr

/-- Pointwise update of a function-modelled array. -/
def upd (f : Nat → Nat) (k v : Nat) : Nat → Nat :=
  fun x => if x = k then v else f x

/-- The interpreter state `struct State` of `src/chip8.rs` (the font table,
the dispatch tables and the RNG handle are not data; the RNG is replaced by
the `rand` oracle field). -/
structure Chip8 where
  memory : Nat → Nat
  v : Nat → Nat
  i : Nat
  pc : Nat
  opcode : Nat
  gfx : Nat → Nat
  delay_timer : Nat
  sound_timer : Nat
  stack : List Nat
  keys : Nat → Nat
  rand : Nat
  draw_flag : Bool

@[simp] theorem upd_same (f : Nat → Nat) (k v : Nat) : upd f k v k = v := by
  simp [upd]

@[simp] theorem upd_other (f : Nat → Nat) (k v x : Nat) (h : x ≠ k) :
    upd f k v x = f x := by
  simp [upd, h]

/-! ## Instruction handlers (in source order) -/

/-- `invalid_instruction`: the deliberate no-op for undecoded opcodes. -/
def invalid_instruction (s : Chip8) : Except Fault Chip8 := .ok s

/-- `zero_opcodes` (`0x0NNN`): return (`0x00EE`, popping the stack, fatal on
empty), clear screen (`0x00E0`), otherwise invalid. -/
def zero_opcodes (s : Chip8) : Except Fault Chip8 :=
  if s.opcode % 4096 = 0xEE then
    match s.stack with
    | [] => .error .stackUnderflow
    | a :: rest => .ok { s with pc := a, stack := rest }
  else if s.opcode % 4096 = 0xE0 then
    .ok { s with gfx := fun _ => 0 }
  else invalid_instruction s

/-- `jump_to_address` (`0x1NNN`): `pc = (opcode & 0xFFF) - 2`, pre-subtracting
the driver's uniform `+2` (in-range for every target `NNN ≥ 2`). -/
def jump_to_address (s : Chip8) : Except Fault Chip8 :=
  .ok { s with pc := s.opcode % 4096 - 2 }

/-- `goto_address` (`0x2NNN`): push the current `pc` when the stack holds
fewer than 16 frames (else panic), then `pc = opcode & 0xFFF` — with no `-2`
pre-subtraction, unlike `jump_to_address`. -/
def goto_address (s : Chip8) : Except Fault Chip8 :=
  if s.stack.length < 16 then
    .ok { s with stack := s.pc :: s.stack, pc := s.opcode % 4096 }
  else
    .error .stackOverflow

/-- `skip_next_if_eq` (`0x3XNN`). -/
def skip_next_if_eq (s : Chip8) : Except Fault Chip8 :=
  .ok (if s.v (s.opcode / 256 % 16) = s.opcode % 256
       then { s with pc := s.pc + 2 } else s)

/-- `skip_next_if_neq` (`0x4XNN`). -/
def skip_next_if_neq (s : Chip8) : Except Fault Chip8 :=
  .ok (if s.v (s.opcode / 256 % 16) ≠ s.opcode % 256
       then { s with pc := s.pc + 2 } else s)

/-- `skip_next_if_xy_eq` (`0x5XY0`). -/
def skip_next_if_xy_eq (s : Chip8) : Except Fault Chip8 :=
  .ok (if s.v (s.opcode / 256 % 16) = s.v (s.opcode / 16 % 16)
       then { s with pc := s.pc + 2 } else s)

/-- `set_vx` (`0x6XNN`). -/
def set_vx (s : Chip8) : Except Fault Chip8 :=
  .ok { s with v := upd s.v (s.opcode / 256 % 16) (s.opcode % 256) }

/-- `add_vx` (`0x7XNN`): wrapping add of the immediate, no flag. -/
def add_vx (s : Chip8) : Except Fault Chip8 :=
  .ok { s with v := upd s.v (s.opcode / 256 % 16)
                        ((s.v (s.opcode / 256 % 16) + s.opcode % 256) % 256) }

/-- `set_vx_vy` (`0x8XY0`). -/
def set_vx_vy (s : Chip8) : Except Fault Chip8 :=
  .ok { s with v := upd s.v (s.opcode / 256 % 16) (s.v (s.opcode / 16 % 16)) }

/-- `vx_or_eq_vy` (`0x8XY1`). -/
def vx_or_eq_vy (s : Chip8) : Except Fault Chip8 :=
  .ok { s with v := upd s.v (s.opcode / 256 % 16)
                        (s.v (s.opcode / 256 % 16) ||| s.v (s.opcode / 16 % 16)) }

/-- `vx_and_eq_vy` (`0x8XY2`). -/
def vx_and_eq_vy (s : Chip8) : Except Fault Chip8 :=
  .ok { s with v := upd s.v (s.opcode / 256 % 16)
                        (s.v (s.opcode / 256 % 16) &&& s.v (s.opcode / 16 % 16)) }

/-- `vx_xor_eq_vy` (`0x8XY3`). -/
def vx_xor_eq_vy (s : Chip8) : Except Fault Chip8 :=
  .ok { s with v := upd s.v (s.opcode / 256 % 16)
                        (s.v (s.opcode / 256 % 16) ^^^ s.v (s.opcode / 16 % 16)) }

/-- `vx_add_vy` (`0x8XY4`): reads `x`, `y`, writes the carry into `VF`
(`y > 0xFF - x`), then wrapping-adds the saved `y` into the *current* `v[X]`
(which is the freshly written flag when `X = 0xF`). -/
def vx_add_vy (s : Chip8) : Except Fault Chip8 :=
  let X := s.opcode / 256 % 16
  let x := s.v X
  let y := s.v (s.opcode / 16 % 16)
  let v1 := upd s.v 15 (if 255 - x < y then 1 else 0)
  .ok { s with v := upd v1 X ((v1 X + y) % 256) }

/-- `vx_sub_vy` (`0x8XY5`): writes the no-borrow flag (`0` when `y ≥ x`)
into `VF` first, then wrapping-subtracts the saved `y` from the current
`v[X]`. -/
def vx_sub_vy (s : Chip8) : Except Fault Chip8 :=
  let X := s.opcode / 256 % 16
  let x := s.v X
  let y := s.v (s.opcode / 16 % 16)
  let v1 := upd s.v 15 (if x ≤ y then 0 else 1)
  .ok { s with v := upd v1 X ((v1 X + 256 - y) % 256) }

/-- `shift_vx_right` (`0x8XY6`): `VF` takes the low bit of `v[X]`, then the
current `v[X]` is shifted right by one. -/
def shift_vx_right (s : Chip8) : Except Fault Chip8 :=
  let X := s.opcode / 256 % 16
  let v1 := upd s.v 15 (s.v X % 2)
  .ok { s with v := upd v1 X (v1 X / 2) }

/-- `vy_sub_vx` (`0x8XY7`): writes the no-borrow flag (`0` when `x ≥ y`) into
`VF`, then stores the wrapping difference of the *saved* `y` and `x` into
`v[X]`. -/
def vy_sub_vx (s : Chip8) : Except Fault Chip8 :=
  let X := s.opcode / 256 % 16
  let x := s.v X
  let y := s.v (s.opcode / 16 % 16)
  let v1 := upd s.v 15 (if y ≤ x then 0 else 1)
  .ok { s with v := upd v1 X ((y + 256 - x) % 256) }

/-- `vx_shift_left` (`0x8XYE`): `VF` takes the raw masked high bit
(`v[X] & 0x80`, not normalized to 0/1), then the current `v[X]` is shifted
left by one with 8-bit wraparound. -/
def vx_shift_left (s : Chip8) : Except Fault Chip8 :=
  let X := s.opcode / 256 % 16
  let v1 := upd s.v 15 (s.v X &&& 128)
  .ok { s with v := upd v1 X (v1 X * 2 % 256) }

/-- The `arithmetic_instructions` table, indexed by the low nibble
(`0x8NNN` dispatch). -/
def arithmetic_instruction (s : Chip8) : Except Fault Chip8 :=
  if s.opcode % 16 = 0 then set_vx_vy s
  else if s.opcode % 16 = 1 then vx_or_eq_vy s
  else if s.opcode % 16 = 2 then vx_and_eq_vy s
  else if s.opcode % 16 = 3 then vx_xor_eq_vy s
  else if s.opcode % 16 = 4 then vx_add_vy s
  else if s.opcode % 16 = 5 then vx_sub_vy s
  else if s.opcode % 16 = 6 then shift_vx_right s
  else if s.opcode % 16 = 7 then vy_sub_vx s
  else if s.opcode % 16 = 14 then vx_shift_left s
  else invalid_instruction s

/-- `skip_next_if_xy_neq` (`0x9XY0`). -/
def skip_next_if_xy_neq (s : Chip8) : Except Fault Chip8 :=
  .ok (if s.v (s.opcode / 256 % 16) ≠ s.v (s.opcode / 16 % 16)
       then { s with pc := s.pc + 2 } else s)

/-- `set_i_to_address` (`0xANNN`). -/
def set_i_to_address (s : Chip8) : Except Fault Chip8 :=
  .ok { s with i := s.opcode % 4096 }

/-- `jump_to_address_plus_v0` (`0xBNNN`), with the `-2` pre-subtraction. -/
def jump_to_address_plus_v0 (s : Chip8) : Except Fault Chip8 :=
  .ok { s with pc := s.opcode % 4096 + s.v 0 - 2 }

/-- `set_vx_random` (`0xCXNN`): `v[X] = random_byte & NN`; the random byte is
the `rand` oracle field. -/
def set_vx_random (s : Chip8) : Except Fault Chip8 :=
  .ok { s with v := upd s.v (s.opcode / 256 % 16) (s.rand % 256 &&& s.opcode % 256) }

/-- One inner iteration of `draw`'s blit (`xline` in `0..8`): if the sprite
bit is set, fault on an out-of-range framebuffer index, else record a
collision when the pixel was lit and XOR it. The accumulator is the
framebuffer together with the pending `VF` value. -/
def drawStep (pixel x rowBase : Nat) (acc : (Nat → Nat) × Nat) (xline : Nat) :
    Except Fault ((Nat → Nat) × Nat) :=
  if pixel &&& (128 >>> xline) ≠ 0 then
    if x + xline + rowBase < 2048 then
      .ok (upd acc.1 (x + xline + rowBase) (acc.1 (x + xline + rowBase) ^^^ 1),
           if acc.1 (x + xline + rowBase) = 1 then 1 else acc.2)
    else .error .indexOutOfBounds
  else .ok acc

/-- The whole blit loop of `draw`: fold the rows `0..height`, reading row
`yline` of the sprite from `memory[I + yline]` (fault when out of range) and
XORing its 8 pixels at row base `(y + yline) * 64`. -/
def drawBlit (s : Chip8) : Except Fault ((Nat → Nat) × Nat) :=
  (List.range (s.opcode % 16)).foldlM
    (fun acc yline =>
      if s.i + yline < 4096 then
        (List.range 8).foldlM
          (drawStep (s.memory (s.i + yline)) (s.v (s.opcode / 256 % 16))
            ((s.v (s.opcode / 16 % 16) + yline) * 64)) acc
      else .error Fault.indexOutOfBounds)
    (s.gfx, 0)

/-- `draw` (`0xDXYN`): XOR-blit `height` sprite rows read from memory at `I`
onto the framebuffer, `VF` reset to 0 and set to 1 on collision, and raise
the draw flag. Memory and framebuffer indexing faults are surfaced. -/
def draw (s : Chip8) : Except Fault Chip8 :=
  match drawBlit s with
  | .ok (g, vf) => .ok { s with v := upd s.v 15 vf, gfx := g, draw_flag := true }
  | .error e => .error e

/-- `skip_if_key_pressed` (`0xEX9E` / `0xEXA1`): indexes the 16-slot key map
by the full 8-bit value of `v[X]` (`self.keys[self.v[X].0 as usize]`), so a
value above 15 is an out-of-bounds panic; other low bytes are invalid. -/
def skip_if_key_pressed (s : Chip8) : Except Fault Chip8 :=
  if s.opcode % 256 = 0x9E then
    if s.v (s.opcode / 256 % 16) < 16 then
      .ok (if s.keys (s.v (s.opcode / 256 % 16)) ≠ 0
           then { s with pc := s.pc + 2 } else s)
    else .error .indexOutOfBounds
  else if s.opcode % 256 = 0xA1 then
    if s.v (s.opcode / 256 % 16) < 16 then
      .ok (if s.keys (s.v (s.opcode / 256 % 16)) = 0
           then { s with pc := s.pc + 2 } else s)
    else .error .indexOutOfBounds
  else invalid_instruction s

/-- The `0xFX55` loop: `for i in 0..n { memory[base + i] = v[i] }`. -/
def storeRegs (mem vreg : Nat → Nat) (base : Nat) : Nat → (Nat → Nat)
  | 0 => mem
  | n + 1 => upd (storeRegs mem vreg base n) (base + n) (vreg n)

/-- The `0xFX65` loop as written in the source:
`for (v, i) in ((self.i)..(register + 1)).enumerate() { self.v[v] = self.memory[i] }`,
i.e. `v[k] = memory[base + k]` for `k < n` where `n = register + 1 - base`
(truncated: the range is empty when `base ≥ register + 1`). -/
def loadRegs (vreg mem : Nat → Nat) (base : Nat) : Nat → (Nat → Nat)
  | 0 => vreg
  | n + 1 => upd (loadRegs vreg mem base n) n (mem (base + n))

/-- `f_opcodes` (`0xFXxx`), dispatched on the low byte. `0xFX29` reproduces
the `u8` multiplication `self.v[register].0 * 0x5` (8-bit wraparound in
release builds). `0xFX65` reproduces the source's range
`(self.i)..(register + 1)` verbatim. -/
def f_opcodes (s : Chip8) : Except Fault Chip8 :=
  if s.opcode % 256 = 0x07 then
    .ok { s with v := upd s.v (s.opcode / 256 % 16) s.delay_timer }
  else if s.opcode % 256 = 0x0A then
    match (List.range 16).find? (fun k => s.keys k == 1) with
    | some k => .ok { s with v := upd s.v (s.opcode / 256 % 16) (s.keys k) }
    | none => .ok { s with pc := s.pc - 2 }
  else if s.opcode % 256 = 0x15 then
    .ok { s with delay_timer := s.v (s.opcode / 256 % 16) }
  else if s.opcode % 256 = 0x18 then
    .ok { s with sound_timer := s.v (s.opcode / 256 % 16) }
  else if s.opcode % 256 = 0x1E then
    .ok { s with i := s.i + s.v (s.opcode / 256 % 16) }
  else if s.opcode % 256 = 0x29 then
    .ok { s with i := s.v (s.opcode / 256 % 16) * 5 % 256 }
  else if s.opcode % 256 = 0x33 then
    if s.i + 2 < 4096 then
      .ok { s with memory := upd (upd (upd s.memory s.i
                                        (s.v (s.opcode / 256 % 16) / 100))
                                      (s.i + 1)
                                      (s.v (s.opcode / 256 % 16) % 100 / 10))
                                 (s.i + 2) (s.v (s.opcode / 256 % 16) % 10) }
    else .error .indexOutOfBounds
  else if s.opcode % 256 = 0x55 then
    if s.i + s.opcode / 256 % 16 < 4096 then
      .ok { s with memory := storeRegs s.memory s.v s.i (s.opcode / 256 % 16 + 1) }
    else .error .indexOutOfBounds
  else if s.opcode % 256 = 0x65 then
    .ok { s with v := loadRegs s.v s.memory s.i (s.opcode / 256 % 16 + 1 - s.i) }
  else invalid_instruction s

/-- The top-level `instructions` dispatch table, indexed by the high nibble. -/
def instructions (s : Chip8) : Except Fault Chip8 :=
  if s.opcode / 4096 % 16 = 0 then zero_opcodes s
  else if s.opcode / 4096 % 16 = 1 then jump_to_address s
  else if s.opcode / 4096 % 16 = 2 then goto_address s
  else if s.opcode / 4096 % 16 = 3 then skip_next_if_eq s
  else if s.opcode / 4096 % 16 = 4 then skip_next_if_neq s
  else if s.opcode / 4096 % 16 = 5 then skip_next_if_xy_eq s
  else if s.opcode / 4096 % 16 = 6 then set_vx s
  else if s.opcode / 4096 % 16 = 7 then add_vx s
  else if s.opcode / 4096 % 16 = 8 then arithmetic_instruction s
  else if s.opcode / 4096 % 16 = 9 then skip_next_if_xy_neq s
  else if s.opcode / 4096 % 16 = 10 then set_i_to_address s
  else if s.opcode / 4096 % 16 = 11 then jump_to_address_plus_v0 s
  else if s.opcode / 4096 % 16 = 12 then set_vx_random s
  else if s.opcode / 4096 % 16 = 13 then draw s
  else if s.opcode / 4096 % 16 = 14 then skip_if_key_pressed s
  else f_opcodes s

/-- The big-endian opcode fetch of `emulate_cycle`:
`(memory[pc] as u16) << 8 | memory[pc + 1]` (memory cells are `u8`s, hence
the `% 256` normalisation of the modelled bytes). -/
def fetch (s : Chip8) : Nat :=
  s.memory s.pc % 256 * 256 + s.memory (s.pc + 1) % 256

/-- `emulate_cycle`: fetch (faulting when `pc + 1` is outside memory),
dispatch on the high nibble, apply the uniform `pc += 2`, then tick both
timers (`BEEP` on the sound timer hitting 1 is output only). -/
def emulate_cycle (s : Chip8) : Except Fault Chip8 :=
  if s.pc + 1 < 4096 then
    match instructions { s with opcode := fetch s } with
    | .error e => .error e
    | .ok s1 =>
      .ok { s1 with
              pc := s1.pc + 2,
              delay_timer := s1.delay_timer - 1,
              sound_timer := s1.sound_timer - 1 }
  else .error .indexOutOfBounds

/-- `n` consecutive cycles (a run of the driver loop's calls). -/
def runCycles : Nat → Chip8 → Except Fault Chip8
  | 0, s => .ok s
  | n + 1, s =>
    match emulate_cycle s with
    | .error e => .error e
    | .ok s1 => runCycles n s1

/-- The memory effect of `load_buffer`: copy byte `index` of the buffer to
`memory[index + 0x200]`, stopping (with only a diagnostic print) at the
first index that would land outside memory. -/
def load_buffer_mem (mem : Nat → Nat) (index : Nat) : List Nat → (Nat → Nat)
  | [] => mem
  | b :: rest =>
    if 4096 ≤ index + 512 then mem
    else load_buffer_mem (upd mem (index + 512) b) (index + 1) rest

/-- `load_buffer`: copy the buffer to memory from `0x200`, truncating
oversized input. -/
def load_buffer (s : Chip8) (buffer : List Nat) : Chip8 :=
  { s with memory := load_buffer_mem s.memory 0 buffer }

/-- The memory effect of `load_game` applied to the bytes `fs::read`
returned: the same copy loop but with *no* length check, so an index landing
outside memory is an out-of-bounds panic. -/
def load_game_mem (mem : Nat → Nat) (index : Nat) : List Nat → Except Fault (Nat → Nat)
  | [] => .ok mem
  | b :: rest =>
    if index + 512 < 4096 then load_game_mem (upd mem (index + 512) b) (index + 1) rest
    else .error .indexOutOfBounds

/-- `load_game` on a successfully read file content `buffer`. -/
def load_game (s : Chip8) (buffer : List Nat) : Except Fault Chip8 :=
  (load_game_mem s.memory 0 buffer).map (fun m => { s with memory := m })

/-! ## Helper lemmas and witness base state -/

set_option maxRecDepth 10000 in
/-- Masking a byte with `0x80` keeps exactly the high bit's value. -/
theorem land128 : ∀ z, z < 256 → z &&& 128 = if 128 ≤ z then 128 else 0 := by
  decide

/-- An all-zero machine at `pc = 0x200`, the base of the concrete witness
states. -/
def machine0 : Chip8 :=
  { memory := fun _ => 0, v := fun _ => 0, i := 0, pc := 512, opcode := 0,
    gfx := fun _ => 0, delay_timer := 0, sound_timer := 0, stack := [],
    keys := fun _ => 0, rand := 0, draw_flag := false }

/-! ## Claim theorems -/

/-- C4: for 8-bit register values `Vx`, `Vy` (with `x` a register other than
the flag register `VF` itself), the add-with-carry instruction `0x8XY4` sets
`VF` to 1 iff the unwrapped sum `Vx + Vy` exceeds 255 (else 0) and stores
`(Vx + Vy) mod 256` into `Vx`. -/
theorem add_with_carry_spec (s : Chip8)
    (hhi : s.opcode / 4096 % 16 = 8) (hlo : s.opcode % 16 = 4)
    (hX : s.opcode / 256 % 16 ≠ 15)
    (hx : s.v (s.opcode / 256 % 16) < 256)
    (hy : s.v (s.opcode / 16 % 16) < 256) :
    ∃ s', instructions s = .ok s' ∧
      s'.v 15 = (if 255 < s.v (s.opcode / 256 % 16) + s.v (s.opcode / 16 % 16)
                 then 1 else 0) ∧
      s'.v (s.opcode / 256 % 16)
        = (s.v (s.opcode / 256 % 16) + s.v (s.opcode / 16 % 16)) % 256 := by
  have e : instructions s = vx_add_vy s := by
    simp [instructions, arithmetic_instruction, hhi, hlo]
  rw [e]
  simp only [vx_add_vy]
  refine ⟨_, rfl, ?_, ?_⟩
  · simp only [upd, Ne.symm hX, if_false, if_pos rfl]
    split_ifs <;> omega
  · simp [upd, hX]

/-- C4 witness: `0x8124` with `V1 = 200`, `V2 = 100` yields `VF = 1` and
`V1 = 44`. -/
theorem add_with_carry_spec_witness :
    ∃ s', instructions { machine0 with
        opcode := 0x8124, v := upd (upd machine0.v 1 200) 2 100 } = .ok s' ∧
      s'.v 15 = 1 ∧ s'.v 1 = 44 := by
  obtain ⟨s', h1, h2, h3⟩ :=
    add_with_carry_spec
      { machine0 with opcode := 0x8124, v := upd (upd machine0.v 1 200) 2 100 }
      (by decide) (by decide) (by decide) (by decide) (by decide)
  simp only [machine0, upd] at h2 h3
  exact ⟨s', h1, by simpa using h2, by simpa using h3⟩

/-- C5: for 8-bit register values `Vx`, `Vy` (with `x ≠ 0xF`), the forward
subtract `0x8XY5` sets `VF` to 0 when `Vy ≥ Vx` and to 1 otherwise (the flag
is written before the result, so `Vy = VF` still means the original `VF`),
and stores `(Vx - Vy) mod 256` into `Vx`. -/
theorem sub_forward_spec (s : Chip8)
    (hhi : s.opcode / 4096 % 16 = 8) (hlo : s.opcode % 16 = 5)
    (hX : s.opcode / 256 % 16 ≠ 15)
    (hx : s.v (s.opcode / 256 % 16) < 256)
    (hy : s.v (s.opcode / 16 % 16) < 256) :
    ∃ s', instructions s = .ok s' ∧
      s'.v 15 = (if s.v (s.opcode / 256 % 16) ≤ s.v (s.opcode / 16 % 16)
                 then 0 else 1) ∧
      s'.v (s.opcode / 256 % 16)
        = (s.v (s.opcode / 256 % 16) + 256 - s.v (s.opcode / 16 % 16)) % 256 := by
  have e : instructions s = vx_sub_vy s := by
    simp [instructions, arithmetic_instruction, hhi, hlo]
  rw [e]
  simp only [vx_sub_vy]
  refine ⟨_, rfl, ?_, ?_⟩
  · simp [upd, Ne.symm hX]
  · simp [upd, hX]

/-- C5 witness: `0x8125` with `V1 = 100`, `V2 = 200` yields `VF = 0` (borrow)
and `V1 = 156`. -/
theorem sub_forward_spec_witness :
    ∃ s', instructions { machine0 with
        opcode := 0x8125, v := upd (upd machine0.v 1 100) 2 200 } = .ok s' ∧
      s'.v 15 = 0 ∧ s'.v 1 = 156 := by
  obtain ⟨s', h1, h2, h3⟩ :=
    sub_forward_spec
      { machine0 with opcode := 0x8125, v := upd (upd machine0.v 1 100) 2 200 }
      (by decide) (by decide) (by decide) (by decide) (by decide)
  simp only [machine0, upd] at h2 h3
  exact ⟨s', h1, by simpa using h2, by simpa using h3⟩

/-- C6: for an 8-bit register value `Vx` (with `x ≠ 0xF`), the shift-left
instruction `0x8XYE` stores the raw masked high-bit byte of the original
`Vx` into `VF` (`0x80` when the high bit is set, not normalized to 0/1) and
stores `(Vx << 1) mod 256` into `Vx`. -/
theorem shift_left_spec (s : Chip8)
    (hhi : s.opcode / 4096 % 16 = 8) (hlo : s.opcode % 16 = 14)
    (hX : s.opcode / 256 % 16 ≠ 15)
    (hx : s.v (s.opcode / 256 % 16) < 256) :
    ∃ s', instructions s = .ok s' ∧
      s'.v 15 = (if 128 ≤ s.v (s.opcode / 256 % 16) then 128 else 0) ∧
      s'.v (s.opcode / 256 % 16) = s.v (s.opcode / 256 % 16) * 2 % 256 := by
  have e : instructions s = vx_shift_left s := by
    simp [instructions, arithmetic_instruction, hhi, hlo]
  rw [e]
  simp only [vx_shift_left]
  refine ⟨_, rfl, ?_, ?_⟩
  · simp only [upd, Ne.symm hX, if_false, if_pos rfl]
    exact land128 _ hx
  · simp [upd, hX]

/-- C6 witness: `0x812E` with `V1 = 0x90` yields `VF = 0x80` (the raw masked
bit, not 1) and `V1 = 0x20`. -/
theorem shift_left_spec_witness :
    ∃ s', instructions { machine0 with
        opcode := 0x812E, v := upd machine0.v 1 144 } = .ok s' ∧
      s'.v 15 = 128 ∧ s'.v 1 = 32 := by
  obtain ⟨s', h1, h2, h3⟩ :=
    shift_left_spec
      { machine0 with opcode := 0x812E, v := upd machine0.v 1 144 }
      (by decide) (by decide) (by decide) (by decide)
  simp only [machine0, upd] at h2 h3
  exact ⟨s', h1, by simpa using h2, by simpa using h3⟩

/-- C10: the key-skip instructions `0xEX9E` and `0xEXA1` index the 16-slot
key map by the full 8-bit value of `Vx` (not `Vx mod 16`): when `Vx ≤ 15`
the access is in bounds and `PC` gains an extra 2 exactly when the key-slot
condition holds; when `Vx > 15` the access is out of bounds and the machine
faults. -/
theorem key_skip_full_byte_index :
    (∀ s : Chip8, s.opcode % 256 = 0x9E → s.v (s.opcode / 256 % 16) ≤ 15 →
      skip_if_key_pressed s =
        .ok (if s.keys (s.v (s.opcode / 256 % 16)) ≠ 0
             then { s with pc := s.pc + 2 } else s)) ∧
    (∀ s : Chip8, s.opcode % 256 = 0xA1 → s.v (s.opcode / 256 % 16) ≤ 15 →
      skip_if_key_pressed s =
        .ok (if s.keys (s.v (s.opcode / 256 % 16)) = 0
             then { s with pc := s.pc + 2 } else s)) ∧
    (∀ s : Chip8, s.opcode % 256 = 0x9E ∨ s.opcode % 256 = 0xA1 →
      15 < s.v (s.opcode / 256 % 16) →
      skip_if_key_pressed s = .error .indexOutOfBounds) := by
  refine ⟨?_, ?_, ?_⟩
  · intro s h hv
    simp [skip_if_key_pressed, h, Nat.lt_succ_of_le hv]
  · intro s h hv
    simp [skip_if_key_pressed, h, Nat.lt_succ_of_le hv]
  · rintro s (h | h) hv <;>
      simp [skip_if_key_pressed, h,
            show ¬ s.v (s.opcode / 256 % 16) < 16 by omega]

/-- Concrete `0xE09E` state with `V0 = 3` and key 3 pressed. -/
def machineE1 : Chip8 :=
  { machine0 with
    opcode := 0xE09E
    v := upd machine0.v 0 3
    keys := upd machine0.keys 3 1 }

/-- Concrete `0xE09E` state with the out-of-range value `V0 = 200`. -/
def machineE2 : Chip8 :=
  { machine0 with
    opcode := 0xE09E
    v := upd machine0.v 0 200 }

/-- C10 witness: with `V0 = 3` and key 3 pressed, `0xE09E` skips
(`pc = 0x202`); with `V0 = 200` the key-map access faults. -/
theorem key_skip_full_byte_index_witness :
    (∃ s', skip_if_key_pressed machineE1 = .ok s' ∧ s'.pc = 514) ∧
    skip_if_key_pressed machineE2 = .error .indexOutOfBounds := by
  constructor
  · have h := key_skip_full_byte_index.1 machineE1 (by decide) (by decide)
    rw [if_pos (by decide)] at h
    exact ⟨_, h, by decide⟩
  · exact key_skip_full_byte_index.2.2 machineE2 (Or.inl (by decide)) (by decide)

/-- Reduction of `f_opcodes` on `0xFX0A` when no key slot holds 1: only the
program counter is rewound by 2. -/
theorem f_opcodes_wait_nokey (s : Chip8) (hlo : s.opcode % 256 = 0x0A)
    (hnone : ∀ k, k < 16 → s.keys k ≠ 1) :
    f_opcodes s = .ok { s with pc := s.pc - 2 } := by
  have hfind : (List.range 16).find? (fun k => s.keys k == 1) = none := by
    rw [List.find?_eq_none]
    intro k hk
    simp only [List.mem_range] at hk
    simpa using hnone k hk
  simp [f_opcodes, hlo, hfind]

/-- Reduction of `f_opcodes` on `0xFX0A` when some key slot holds 1: the
register takes the detected key's state value, which is 1 by the filter. -/
theorem f_opcodes_wait_key (s : Chip8) (hlo : s.opcode % 256 = 0x0A)
    (hsome : ∃ k, k < 16 ∧ s.keys k = 1) :
    f_opcodes s = .ok { s with v := upd s.v (s.opcode / 256 % 16) 1 } := by
  obtain ⟨k, hk, hkey⟩ := hsome
  cases hfind : (List.range 16).find? (fun j => s.keys j == 1) with
  | none =>
    rw [List.find?_eq_none] at hfind
    exact absurd hkey (by simpa using hfind k (List.mem_range.mpr hk))
  | some k0 =>
    have hk0 : s.keys k0 = 1 := by simpa using List.find?_some hfind
    simp [f_opcodes, hlo, hfind, hk0]

/-- C3: a cycle fetching `0xFX0A` with no key slot pressed rewinds `PC` by 2
so that the uniform `+2` leaves `PC` (and all other architectural state,
timers apart from their normal per-cycle tick) unchanged and the instruction
re-executes; with a pressed key slot, `Vx` is assigned the detected key's
state value (1) and `PC` advances by 2 over the cycle. -/
theorem wait_for_key_spec :
    (∀ s : Chip8, s.pc + 1 < 4096 → 2 ≤ s.pc →
      fetch s / 4096 % 16 = 15 → fetch s % 256 = 0x0A →
      (∀ k, k < 16 → s.keys k ≠ 1) →
      ∃ s', emulate_cycle s = .ok s' ∧ s'.pc = s.pc ∧ s'.v = s.v ∧
        s'.memory = s.memory ∧ s'.i = s.i ∧ s'.stack = s.stack ∧
        s'.gfx = s.gfx ∧ s'.keys = s.keys ∧ s'.draw_flag = s.draw_flag ∧
        s'.delay_timer = s.delay_timer - 1 ∧
        s'.sound_timer = s.sound_timer - 1) ∧
    (∀ s : Chip8, s.pc + 1 < 4096 →
      fetch s / 4096 % 16 = 15 → fetch s % 256 = 0x0A →
      (∃ k, k < 16 ∧ s.keys k = 1) →
      ∃ s', emulate_cycle s = .ok s' ∧ s'.pc = s.pc + 2 ∧
        s'.v = upd s.v (fetch s / 256 % 16) 1 ∧ s'.memory = s.memory ∧
        s'.i = s.i ∧ s'.stack = s.stack ∧ s'.gfx = s.gfx ∧
        s'.keys = s.keys ∧ s'.draw_flag = s.draw_flag) := by
  constructor
  · intro s hpc hpc2 hhi hlo hnone
    have e1 : instructions { s with opcode := fetch s }
        = f_opcodes { s with opcode := fetch s } := by
      simp [instructions, hhi]
    have e2 : f_opcodes { s with opcode := fetch s }
        = .ok { s with opcode := fetch s, pc := s.pc - 2 } :=
      f_opcodes_wait_nokey _ hlo hnone
    have e3 : emulate_cycle s = .ok { s with
        opcode := fetch s
        pc := s.pc - 2 + 2
        delay_timer := s.delay_timer - 1
        sound_timer := s.sound_timer - 1 } := by
      rw [emulate_cycle, if_pos hpc, e1, e2]
    exact ⟨_, e3, by simp; omega, rfl, rfl, rfl, rfl, rfl, rfl, rfl, rfl, rfl⟩
  · intro s hpc hhi hlo hsome
    have e1 : instructions { s with opcode := fetch s }
        = f_opcodes { s with opcode := fetch s } := by
      simp [instructions, hhi]
    have e2 : f_opcodes { s with opcode := fetch s }
        = .ok { s with
                opcode := fetch s
                v := upd s.v (fetch s / 256 % 16) 1 } :=
      f_opcodes_wait_key _ hlo hsome
    have e3 : emulate_cycle s = .ok { s with
        opcode := fetch s
        v := upd s.v (fetch s / 256 % 16) 1
        pc := s.pc + 2
        delay_timer := s.delay_timer - 1
        sound_timer := s.sound_timer - 1 } := by
      rw [emulate_cycle, if_pos hpc, e1, e2]
    exact ⟨_, e3, rfl, rfl, rfl, rfl, rfl, rfl, rfl, rfl⟩

/-- Concrete state with `0xF00A` at `pc = 0x200` and no key pressed. -/
def machineW1 : Chip8 :=
  { machine0 with memory := upd (upd machine0.memory 512 0xF0) 513 0x0A }

/-- Concrete state with `0xF00A` at `pc = 0x200` and key 3 pressed. -/
def machineW2 : Chip8 :=
  { machineW1 with keys := upd machine0.keys 3 1 }

/-- C3 witness: with no key pressed the `0xF00A` cycle leaves `pc = 0x200`;
with key 3 pressed it sets `V0 = 1` and moves on to `pc = 0x202`. -/
theorem wait_for_key_spec_witness :
    (∃ s', emulate_cycle machineW1 = .ok s' ∧ s'.pc = 512) ∧
    (∃ s', emulate_cycle machineW2 = .ok s' ∧ s'.pc = 514 ∧
      s'.v = upd machineW2.v 0 1) := by
  constructor
  · obtain ⟨s', h1, h2, _⟩ := wait_for_key_spec.1 machineW1
      (by decide) (by decide) (by decide) (by decide) (by decide)
    exact ⟨s', h1, h2⟩
  · obtain ⟨s', h1, h2, h3, _⟩ := wait_for_key_spec.2 machineW2
      (by decide) (by decide) (by decide) ⟨3, by omega, by decide⟩
    exact ⟨s', h1, h2, h3⟩

/-- An opcode that reaches no defined handler variant: the undecoded `0x0`,
`0x8`, `0xE` and `0xF` patterns, exactly as dispatched by the source. -/
def unknownOp (op : Nat) : Prop :=
  (op / 4096 % 16 = 0 ∧ op % 4096 ≠ 0xEE ∧ op % 4096 ≠ 0xE0) ∨
  (op / 4096 % 16 = 8 ∧ (op % 16 = 8 ∨ op % 16 = 9 ∨ op % 16 = 10 ∨
    op % 16 = 11 ∨ op % 16 = 12 ∨ op % 16 = 13 ∨ op % 16 = 15)) ∨
  (op / 4096 % 16 = 14 ∧ op % 256 ≠ 0x9E ∧ op % 256 ≠ 0xA1) ∨
  (op / 4096 % 16 = 15 ∧ op % 256 ≠ 0x07 ∧ op % 256 ≠ 0x0A ∧
    op % 256 ≠ 0x15 ∧ op % 256 ≠ 0x18 ∧ op % 256 ≠ 0x1E ∧ op % 256 ≠ 0x29 ∧
    op % 256 ≠ 0x33 ∧ op % 256 ≠ 0x55 ∧ op % 256 ≠ 0x65)

instance (op : Nat) : Decidable (unknownOp op) := by
  unfold unknownOp
  infer_instance

/-- Dispatching an undecoded opcode lands in `invalid_instruction`, the
identity. -/
theorem instructions_unknown (s : Chip8) (h : unknownOp s.opcode) :
    instructions s = .ok s := by
  rcases h with ⟨h0, h1, h2⟩ | ⟨h0, hk⟩ | ⟨h0, h1, h2⟩ |
    ⟨h0, h1, h2, h3, h4, h5, h6, h7, h8, h9⟩
  · simp [instructions, h0, zero_opcodes, h1, h2, invalid_instruction]
  · rcases hk with hk | hk | hk | hk | hk | hk | hk <;>
      simp [instructions, h0, arithmetic_instruction, hk, invalid_instruction]
  · simp [instructions, h0, skip_if_key_pressed, h1, h2, invalid_instruction]
  · simp [instructions, h0, f_opcodes, h1, h2, h3, h4, h5, h6, h7, h8, h9,
      invalid_instruction]

/-- C9: a cycle whose fetched opcode decodes to no defined variant does not
fault and leaves memory, all registers, `I`, the stack, the framebuffer, the
draw flag and the key map unchanged; `PC` advances by exactly 2 and only the
normal per-cycle timer tick occurs. -/
theorem unknown_opcode_noop (s : Chip8) (hpc : s.pc + 1 < 4096)
    (hop : unknownOp (fetch s)) :
    ∃ s', emulate_cycle s = .ok s' ∧ s'.memory = s.memory ∧ s'.v = s.v ∧
      s'.i = s.i ∧ s'.stack = s.stack ∧ s'.gfx = s.gfx ∧
      s'.draw_flag = s.draw_flag ∧ s'.keys = s.keys ∧ s'.pc = s.pc + 2 ∧
      s'.delay_timer = s.delay_timer - 1 ∧
      s'.sound_timer = s.sound_timer - 1 := by
  have e1 : instructions { s with opcode := fetch s }
      = .ok { s with opcode := fetch s } :=
    instructions_unknown _ hop
  have e3 : emulate_cycle s = .ok { s with
      opcode := fetch s
      pc := s.pc + 2
      delay_timer := s.delay_timer - 1
      sound_timer := s.sound_timer - 1 } := by
    rw [emulate_cycle, if_pos hpc, e1]
  exact ⟨_, e3, rfl, rfl, rfl, rfl, rfl, rfl, rfl, rfl, rfl, rfl⟩

/-- Concrete state whose fetched opcode `0x0808` is undecoded. -/
def machineU : Chip8 :=
  { machine0 with
    memory := upd (upd machine0.memory 512 8) 513 8
    delay_timer := 5
    sound_timer := 7 }

/-- C9 witness: the undecoded opcode `0x0808` only advances `pc` to `0x202`
and ticks the timers. -/
theorem unknown_opcode_noop_witness :
    ∃ s', emulate_cycle machineU = .ok s' ∧ s'.memory = machineU.memory ∧
      s'.v = machineU.v ∧ s'.i = machineU.i ∧ s'.stack = machineU.stack ∧
      s'.gfx = machineU.gfx ∧ s'.draw_flag = machineU.draw_flag ∧
      s'.keys = machineU.keys ∧ s'.pc = 514 ∧ s'.delay_timer = 4 ∧
      s'.sound_timer = 6 :=
  unknown_opcode_noop machineU (by decide) (by decide)

/-- `jump_to_address` leaves the return stack untouched. -/
theorem jump_to_address_stack (s s' : Chip8) (h : jump_to_address s = .ok s') :
    s'.stack = s.stack := by
  unfold jump_to_address at h
  injection h with h
  subst h
  rfl

/-- `skip_next_if_eq` leaves the return stack untouched. -/
theorem skip_next_if_eq_stack (s s' : Chip8) (h : skip_next_if_eq s = .ok s') :
    s'.stack = s.stack := by
  unfold skip_next_if_eq at h
  injection h with h
  subst h
  split <;> rfl

/-- `skip_next_if_neq` leaves the return stack untouched. -/
theorem skip_next_if_neq_stack (s s' : Chip8) (h : skip_next_if_neq s = .ok s') :
    s'.stack = s.stack := by
  unfold skip_next_if_neq at h
  injection h with h
  subst h
  split <;> rfl

/-- `skip_next_if_xy_eq` leaves the return stack untouched. -/
theorem skip_next_if_xy_eq_stack (s s' : Chip8)
    (h : skip_next_if_xy_eq s = .ok s') : s'.stack = s.stack := by
  unfold skip_next_if_xy_eq at h
  injection h with h
  subst h
  split <;> rfl

/-- `set_vx` leaves the return stack untouched. -/
theorem set_vx_stack (s s' : Chip8) (h : set_vx s = .ok s') :
    s'.stack = s.stack := by
  unfold set_vx at h
  injection h with h
  subst h
  rfl

/-- `add_vx` leaves the return stack untouched. -/
theorem add_vx_stack (s s' : Chip8) (h : add_vx s = .ok s') :
    s'.stack = s.stack := by
  unfold add_vx at h
  injection h with h
  subst h
  rfl

/-- Every `0x8XYN` variant leaves the return stack untouched. -/
theorem arithmetic_instruction_stack (s s' : Chip8)
    (h : arithmetic_instruction s = .ok s') : s'.stack = s.stack := by
  have hb : s.opcode % 16 < 16 := Nat.mod_lt _ (by norm_num)
  unfold arithmetic_instruction set_vx_vy vx_or_eq_vy vx_and_eq_vy vx_xor_eq_vy
    vx_add_vy vx_sub_vy shift_vx_right vy_sub_vx vx_shift_left
    invalid_instruction at h
  generalize hn : s.opcode % 16 = n at h hb
  interval_cases n <;> simp only [Except.ok.injEq, Nat.reduceEqDiff, reduceIte] at h <;>
    (subst h; rfl)

/-- `skip_next_if_xy_neq` leaves the return stack untouched. -/
theorem skip_next_if_xy_neq_stack (s s' : Chip8)
    (h : skip_next_if_xy_neq s = .ok s') : s'.stack = s.stack := by
  unfold skip_next_if_xy_neq at h
  injection h with h
  subst h
  split <;> rfl

/-- `set_i_to_address` leaves the return stack untouched. -/
theorem set_i_to_address_stack (s s' : Chip8) (h : set_i_to_address s = .ok s') :
    s'.stack = s.stack := by
  unfold set_i_to_address at h
  injection h with h
  subst h
  rfl

/-- `jump_to_address_plus_v0` leaves the return stack untouched. -/
theorem jump_to_address_plus_v0_stack (s s' : Chip8)
    (h : jump_to_address_plus_v0 s = .ok s') : s'.stack = s.stack := by
  unfold jump_to_address_plus_v0 at h
  injection h with h
  subst h
  rfl

/-- `set_vx_random` leaves the return stack untouched. -/
theorem set_vx_random_stack (s s' : Chip8) (h : set_vx_random s = .ok s') :
    s'.stack = s.stack := by
  unfold set_vx_random at h
  injection h with h
  subst h
  rfl

/-- `draw` leaves the return stack untouched. -/
theorem draw_stack (s s' : Chip8) (h : draw s = .ok s') :
    s'.stack = s.stack := by
  unfold draw at h
  cases hf : drawBlit s with
  | error e => rw [hf] at h; exact (Except.noConfusion h)
  | ok p =>
    rw [hf] at h
    obtain ⟨g, vf⟩ := p
    injection h with h
    subst h
    rfl

/-- `skip_if_key_pressed` leaves the return stack untouched. -/
theorem skip_if_key_pressed_stack (s s' : Chip8)
    (h : skip_if_key_pressed s = .ok s') : s'.stack = s.stack := by
  unfold skip_if_key_pressed invalid_instruction at h
  by_cases c1 : s.opcode % 256 = 0x9E
  · rw [if_pos c1] at h
    by_cases cv : s.v (s.opcode / 256 % 16) < 16
    · rw [if_pos cv] at h
      injection h with h
      subst h
      split <;> rfl
    · rw [if_neg cv] at h
      exact (Except.noConfusion h)
  rw [if_neg c1] at h
  by_cases c2 : s.opcode % 256 = 0xA1
  · rw [if_pos c2] at h
    by_cases cv : s.v (s.opcode / 256 % 16) < 16
    · rw [if_pos cv] at h
      injection h with h
      subst h
      split <;> rfl
    · rw [if_neg cv] at h
      exact (Except.noConfusion h)
  rw [if_neg c2] at h
  injection h with h
  subst h
  rfl

/-- Every `0xFXxx` variant leaves the return stack untouched. -/
theorem f_opcodes_stack (s s' : Chip8) (h : f_opcodes s = .ok s') :
    s'.stack = s.stack := by
  unfold f_opcodes invalid_instruction at h
  by_cases c07 : s.opcode % 256 = 0x07
  · rw [if_pos c07] at h; injection h with h; subst h; rfl
  rw [if_neg c07] at h
  by_cases c0A : s.opcode % 256 = 0x0A
  · rw [if_pos c0A] at h
    cases hf : (List.range 16).find? (fun k => s.keys k == 1) with
    | some k => rw [hf] at h; injection h with h; subst h; rfl
    | none => rw [hf] at h; injection h with h; subst h; rfl
  rw [if_neg c0A] at h
  by_cases c15 : s.opcode % 256 = 0x15
  · rw [if_pos c15] at h; injection h with h; subst h; rfl
  rw [if_neg c15] at h
  by_cases c18 : s.opcode % 256 = 0x18
  · rw [if_pos c18] at h; injection h with h; subst h; rfl
  rw [if_neg c18] at h
  by_cases c1E : s.opcode % 256 = 0x1E
  · rw [if_pos c1E] at h; injection h with h; subst h; rfl
  rw [if_neg c1E] at h
  by_cases c29 : s.opcode % 256 = 0x29
  · rw [if_pos c29] at h; injection h with h; subst h; rfl
  rw [if_neg c29] at h
  by_cases c33 : s.opcode % 256 = 0x33
  · rw [if_pos c33] at h
    by_cases cg : s.i + 2 < 4096
    · rw [if_pos cg] at h; injection h with h; subst h; rfl
    · rw [if_neg cg] at h; exact (Except.noConfusion h)
  rw [if_neg c33] at h
  by_cases c55 : s.opcode % 256 = 0x55
  · rw [if_pos c55] at h
    by_cases cg : s.i + s.opcode / 256 % 16 < 4096
    · rw [if_pos cg] at h; injection h with h; subst h; rfl
    · rw [if_neg cg] at h; exact (Except.noConfusion h)
  rw [if_neg c55] at h
  by_cases c65 : s.opcode % 256 = 0x65
  · rw [if_pos c65] at h; injection h with h; subst h; rfl
  rw [if_neg c65] at h
  injection h with h
  subst h
  rfl

/-- `zero_opcodes` never grows the return stack. -/
theorem zero_opcodes_stack (s s' : Chip8) (h : zero_opcodes s = .ok s') :
    s'.stack.length ≤ s.stack.length := by
  unfold zero_opcodes invalid_instruction at h
  by_cases cEE : s.opcode % 4096 = 0xEE
  · rw [if_pos cEE] at h
    cases hst : s.stack with
    | nil => rw [hst] at h; exact (Except.noConfusion h)
    | cons a rest =>
      rw [hst] at h
      injection h with h
      subst h
      simp only [List.length_cons]
      exact Nat.le_succ _
  rw [if_neg cEE] at h
  by_cases cE0 : s.opcode % 4096 = 0xE0
  · rw [if_pos cE0] at h; injection h with h; subst h; exact le_rfl
  rw [if_neg cE0] at h
  injection h with h
  subst h
  exact le_rfl

/-- A non-faulting call leaves at most 16 frames (push is guarded by
`len < 16`). -/
theorem goto_address_stack (s s' : Chip8) (h : goto_address s = .ok s') :
    s'.stack.length ≤ 16 := by
  unfold goto_address at h
  by_cases c : s.stack.length < 16
  · rw [if_pos c] at h
    injection h with h
    subst h
    simp only [List.length_cons]
    omega
  · rw [if_neg c] at h
    exact (Except.noConfusion h)

/-- A non-faulting dispatch of any opcode preserves the 16-frame stack
bound. -/
theorem instructions_stack_le (s s' : Chip8) (h : instructions s = .ok s')
    (hlen : s.stack.length ≤ 16) : s'.stack.length ≤ 16 := by
  have hb : s.opcode / 4096 % 16 < 16 := Nat.mod_lt _ (by norm_num)
  unfold instructions at h
  generalize hn : s.opcode / 4096 % 16 = n at h hb
  interval_cases n <;> simp only [Nat.reduceEqDiff, reduceIte] at h
  · exact le_trans (zero_opcodes_stack s s' h) hlen
  · rw [jump_to_address_stack s s' h]; exact hlen
  · exact goto_address_stack s s' h
  · rw [skip_next_if_eq_stack s s' h]; exact hlen
  · rw [skip_next_if_neq_stack s s' h]; exact hlen
  · rw [skip_next_if_xy_eq_stack s s' h]; exact hlen
  · rw [set_vx_stack s s' h]; exact hlen
  · rw [add_vx_stack s s' h]; exact hlen
  · rw [arithmetic_instruction_stack s s' h]; exact hlen
  · rw [skip_next_if_xy_neq_stack s s' h]; exact hlen
  · rw [set_i_to_address_stack s s' h]; exact hlen
  · rw [jump_to_address_plus_v0_stack s s' h]; exact hlen
  · rw [set_vx_random_stack s s' h]; exact hlen
  · rw [draw_stack s s' h]; exact hlen
  · rw [skip_if_key_pressed_stack s s' h]; exact hlen
  · rw [f_opcodes_stack s s' h]; exact hlen

/-- A non-faulting cycle preserves the 16-frame stack bound. -/
theorem emulate_cycle_stack_le (s s' : Chip8) (h : emulate_cycle s = .ok s')
    (hlen : s.stack.length ≤ 16) : s'.stack.length ≤ 16 := by
  unfold emulate_cycle at h
  by_cases hpc : s.pc + 1 < 4096
  · rw [if_pos hpc] at h
    cases hi : instructions { s with opcode := fetch s } with
    | error e => rw [hi] at h; exact (Except.noConfusion h)
    | ok s1 =>
      rw [hi] at h
      injection h with h
      subst h
      exact instructions_stack_le _ s1 hi hlen
  · rw [if_neg hpc] at h
    exact (Except.noConfusion h)

/-- A non-faulting run of any length preserves the 16-frame stack bound. -/
theorem runCycles_stack_le (n : Nat) : ∀ s s' : Chip8, s.stack.length ≤ 16 →
    runCycles n s = .ok s' → s'.stack.length ≤ 16 := by
  induction n with
  | zero =>
    intro s s' hlen h
    unfold runCycles at h
    injection h with h
    subst h
    exact hlen
  | succ n ih =>
    intro s s' hlen h
    unfold runCycles at h
    cases hc : emulate_cycle s with
    | error e => rw [hc] at h; exact (Except.noConfusion h)
    | ok s1 => rw [hc] at h; exact ih s1 s' (emulate_cycle_stack_le s s1 hc hlen) h

/-- C7: a subroutine call (`0x2NNN`) with 16 frames already on the stack is
a fatal fault (`stackOverflow` panic, not a silent skip), a return
(`0x00EE`) with an empty stack is a fatal fault (`stackUnderflow`), and the
stack depth never exceeds 16 in any non-faulting run. -/
theorem stack_limit_spec :
    (∀ s : Chip8, s.pc + 1 < 4096 → fetch s / 4096 % 16 = 2 →
      16 ≤ s.stack.length → emulate_cycle s = .error .stackOverflow) ∧
    (∀ s : Chip8, s.pc + 1 < 4096 → fetch s / 4096 % 16 = 0 →
      fetch s % 4096 = 0xEE → s.stack = [] →
      emulate_cycle s = .error .stackUnderflow) ∧
    (∀ (n : Nat) (s s' : Chip8), s.stack.length ≤ 16 → runCycles n s = .ok s' →
      s'.stack.length ≤ 16) := by
  refine ⟨?_, ?_, runCycles_stack_le⟩
  · intro s hpc hhi hlen
    have e1 : instructions { s with opcode := fetch s }
        = goto_address { s with opcode := fetch s } := by
      simp [instructions, hhi]
    have e2 : goto_address { s with opcode := fetch s }
        = .error .stackOverflow := by
      unfold goto_address
      rw [if_neg (show ¬ s.stack.length < 16 by omega)]
    rw [emulate_cycle, if_pos hpc, e1, e2]
  · intro s hpc hhi hEE hst
    have e1 : instructions { s with opcode := fetch s }
        = zero_opcodes { s with opcode := fetch s } := by
      simp [instructions, hhi]
    have e2 : zero_opcodes { s with opcode := fetch s }
        = .error .stackUnderflow := by
      unfold zero_opcodes
      rw [if_pos (show ({ s with opcode := fetch s } : Chip8).opcode % 4096
            = 0xEE from hEE),
          show ({ s with opcode := fetch s } : Chip8).stack = ([] : List Nat)
            from hst]
    rw [emulate_cycle, if_pos hpc, e1, e2]

/-- Concrete call (`0x2300`) at `pc = 0x200` with a full 16-frame stack. -/
def machineOv : Chip8 :=
  { machine0 with
    memory := upd (upd machine0.memory 512 0x23) 513 0x00
    stack := List.replicate 16 0 }

/-- Concrete return (`0x00EE`) at `pc = 0x200` with an empty stack. -/
def machineUn : Chip8 :=
  { machine0 with memory := upd (upd machine0.memory 512 0x00) 513 0xEE }

/-- C7 witness: the overflow and underflow faults on concrete states, and
the bound after one cycle of the all-zero machine. -/
theorem stack_limit_spec_witness :
    emulate_cycle machineOv = .error .stackOverflow ∧
    emulate_cycle machineUn = .error .stackUnderflow ∧
    ({ machine0 with pc := 514 } : Chip8).stack.length ≤ 16 := by
  refine ⟨?_, ?_, ?_⟩
  · exact stack_limit_spec.1 machineOv (by decide) (by decide) (by decide)
  · exact stack_limit_spec.2.1 machineUn (by decide) (by decide) (by decide) rfl
  · exact stack_limit_spec.2.2 1 machine0 { machine0 with pc := 514 }
      (by decide) rfl

/-- Reading back the `0xFX55` store loop: cell `base + k` holds `v[k]`. -/
theorem storeRegs_at (mem vreg : Nat → Nat) (base : Nat) :
    ∀ n k, k < n → storeRegs mem vreg base n (base + k) = vreg k := by
  intro n
  induction n with
  | zero => intro k hk; exact absurd hk (Nat.not_lt_zero k)
  | succ n ih =>
    intro k hk
    unfold storeRegs
    by_cases hkn : k = n
    · subst hkn
      exact upd_same _ _ _
    · rw [upd_other _ _ _ _ (by omega : base + k ≠ base + n)]
      exact ih k (by omega)

/-- The `0xFX55` store loop writes nothing outside `[base, base + n)`. -/
theorem storeRegs_frame (mem vreg : Nat → Nat) (base : Nat) :
    ∀ n a, a < base ∨ base + n ≤ a → storeRegs mem vreg base n a = mem a := by
  intro n
  induction n with
  | zero => intro a _; rfl
  | succ n ih =>
    intro a ha
    unfold storeRegs
    rw [upd_other _ _ _ _ (by omega : a ≠ base + n)]
    exact ih a (by omega)

/-- Concrete `0xFX65` state: `I = 0x300`, `memory[0x300] = 42`, all
registers zero — the claim expects `V0 = 42` after the load. -/
def machineLd : Chip8 :=
  { machine0 with
    opcode := 0xF065
    i := 768
    memory := upd machine0.memory 768 42 }

/-- C2 (code bug): the block-store half of the claim holds — `0xFX55`
writes `V0..Vx` to `I..I+x` in ascending order leaving registers and all
other memory unchanged — but the block-load `0xFX65` iterates the source's
range `(I)..(x + 1)` instead of `I..(I + x + 1)`: at the failing input
(`I = 0x300`, `x = 0`, `memory[I] = 42`) the range is empty and `V0` stays
`0` where the claim requires `42`. -/
theorem block_transfer_spec :
    (∀ s : Chip8, s.opcode / 4096 % 16 = 15 → s.opcode % 256 = 0x55 →
      s.i + s.opcode / 256 % 16 < 4096 →
      ∃ s', instructions s = .ok s' ∧ s'.v = s.v ∧
        (∀ k, k ≤ s.opcode / 256 % 16 → s'.memory (s.i + k) = s.v k) ∧
        (∀ a, a < s.i ∨ s.i + s.opcode / 256 % 16 < a →
          s'.memory a = s.memory a) ∧
        s'.pc = s.pc ∧ s'.i = s.i ∧ s'.stack = s.stack ∧ s'.gfx = s.gfx) ∧
    (machineLd.memory machineLd.i = 42 ∧
      (f_opcodes machineLd).map (fun t => t.v 0) = .ok 0) := by
  constructor
  · intro s hhi hlo hbound
    have e : instructions s = f_opcodes s := by
      simp [instructions, hhi]
    have e2 : f_opcodes s = .ok { s with
        memory := storeRegs s.memory s.v s.i (s.opcode / 256 % 16 + 1) } := by
      simp [f_opcodes, hlo, hbound]
    rw [e, e2]
    refine ⟨_, rfl, rfl, ?_, ?_, rfl, rfl, rfl, rfl⟩
    · intro k hk
      exact storeRegs_at _ _ _ _ k (by omega)
    · intro a ha
      exact storeRegs_frame _ _ _ _ a (by omega)
  · exact ⟨rfl, rfl⟩

/-- Concrete `0xF155` store state: `I = 0x300`, `V0 = 5`, `V1 = 6`. -/
def machineSt : Chip8 :=
  { machine0 with
    opcode := 0xF155
    i := 768
    v := upd (upd machine0.v 0 5) 1 6 }

/-- C2 witness: the store at the concrete state writes 5 and 6 to
`0x300`/`0x301` and leaves `0x302` untouched. -/
theorem block_transfer_spec_witness :
    ∃ s', instructions machineSt = .ok s' ∧ s'.v = machineSt.v ∧
      s'.memory 768 = 5 ∧ s'.memory 769 = 6 ∧
      s'.memory 770 = machineSt.memory 770 := by
  obtain ⟨s', h1, h2, h3, h4, -⟩ :=
    block_transfer_spec.1 machineSt (by decide) (by decide) (by decide)
  refine ⟨s', h1, h2, ?_, ?_, ?_⟩
  · simpa [machineSt, machine0, upd] using h3 0 (by decide)
  · simpa [machineSt, machine0, upd] using h3 1 (by decide)
  · exact h4 770 (Or.inr (by decide))

/-- The `load_buffer` loop writes nothing below `0x200 + index`, nothing at
or beyond `0x200 + index + len`, and nothing outside memory. -/
theorem load_buffer_mem_frame :
    ∀ (buf : List Nat) (mem : Nat → Nat) (index a : Nat),
    a < index + 512 ∨ index + 512 + buf.length ≤ a ∨ 4096 ≤ a →
    load_buffer_mem mem index buf a = mem a := by
  intro buf
  induction buf with
  | nil => intro mem index a _; rfl
  | cons b rest ih =>
    intro mem index a ha
    simp only [List.length_cons] at ha
    rw [load_buffer_mem]
    by_cases hc : 4096 ≤ index + 512
    · rw [if_pos hc]
    · rw [if_neg hc]
      rw [ih (upd mem (index + 512) b) (index + 1) a (by omega)]
      exact upd_other _ _ _ _ (by omega)

/-- Reading back the `load_buffer` loop: cell `index + 0x200 + k` holds
byte `k` of the buffer. -/
theorem load_buffer_mem_at :
    ∀ (buf : List Nat) (mem : Nat → Nat) (index k : Nat),
    k < buf.length → index + k + 512 < 4096 →
    load_buffer_mem mem index buf (index + 512 + k) = buf.getD k 0 := by
  intro buf
  induction buf with
  | nil => intro mem index k hk _; exact absurd hk (by simp)
  | cons b rest ih =>
    intro mem index k hk hb
    simp only [List.length_cons] at hk
    rw [load_buffer_mem]
    rw [if_neg (by omega)]
    cases k with
    | zero =>
      rw [load_buffer_mem_frame rest _ _ _ (by omega)]
      simp [upd]
    | succ j =>
      rw [List.getD_cons_succ]
      rw [show index + 512 + (j + 1) = index + 1 + 512 + j by omega]
      exact ih _ _ j (by omega) (by omega)

/-- When the buffer fits, the `load_game` copy loop equals the `load_buffer`
one and cannot fault. -/
theorem load_game_mem_ok :
    ∀ (buf : List Nat) (mem : Nat → Nat) (index : Nat),
    index + 512 + buf.length ≤ 4096 →
    load_game_mem mem index buf = .ok (load_buffer_mem mem index buf) := by
  intro buf
  induction buf with
  | nil => intro mem index _; rfl
  | cons b rest ih =>
    intro mem index h
    simp only [List.length_cons] at h
    rw [load_game_mem, load_buffer_mem]
    rw [if_pos (by omega), if_neg (by omega)]
    exact ih _ _ (by omega)

/-- When the buffer does not fit, the `load_game` copy loop (which has no
length check) indexes past `0xFFF` and panics. -/
theorem load_game_mem_fault :
    ∀ (buf : List Nat) (mem : Nat → Nat) (index : Nat),
    0 < buf.length → 4096 < index + 512 + buf.length →
    load_game_mem mem index buf = .error .indexOutOfBounds := by
  intro buf
  induction buf with
  | nil => intro _ _ h _; simp at h
  | cons b rest ih =>
    intro mem index _ h
    simp only [List.length_cons] at h
    rw [load_game_mem]
    by_cases hc : index + 512 < 4096
    · rw [if_pos hc]
      exact ih _ _ (by omega) (by omega)
    · rw [if_neg hc]

/-- C8 (code bug): `load_buffer` copies the buffer to `0x200..`, truncates
oversized input at `0xE00` bytes with only a diagnostic, and never touches
memory outside the copied region (in particular below `0x200`); `load_game`
behaves identically for buffers of at most `0xE00` bytes but, lacking the
length check, aborts with an index-out-of-bounds panic on larger files
instead of rejecting or truncating as the claim requires. -/
theorem program_load_spec :
    (∀ (s : Chip8) (buf : List Nat) (k : Nat), k < buf.length → k < 3584 →
      (load_buffer s buf).memory (512 + k) = buf.getD k 0) ∧
    (∀ (s : Chip8) (buf : List Nat) (a : Nat),
      a < 512 ∨ 512 + min buf.length 3584 ≤ a →
      (load_buffer s buf).memory a = s.memory a) ∧
    (∀ (s : Chip8) (buf : List Nat), buf.length ≤ 3584 →
      load_game s buf = .ok (load_buffer s buf)) ∧
    (∀ (s : Chip8) (buf : List Nat), 3584 < buf.length →
      load_game s buf = .error .indexOutOfBounds) := by
  refine ⟨?_, ?_, ?_, ?_⟩
  · intro s buf k hk hlim
    exact load_buffer_mem_at buf s.memory 0 k hk (by omega)
  · intro s buf a ha
    exact load_buffer_mem_frame buf s.memory 0 a (by omega)
  · intro s buf h
    unfold load_game load_buffer
    rw [load_game_mem_ok buf s.memory 0 (by omega)]
    rfl
  · intro s buf h
    unfold load_game
    rw [load_game_mem_fault buf s.memory 0 (by omega) (by omega)]
    rfl

/-- C8 witness: a 2-byte load lands at `0x200..0x201` leaving `0x12C`
untouched, agrees with `load_game`, and a `0xE01`-byte `load_game` faults. -/
theorem program_load_spec_witness :
    (load_buffer machine0 [7, 9]).memory 512 = 7 ∧
    (load_buffer machine0 [7, 9]).memory 300 = machine0.memory 300 ∧
    load_game machine0 [7, 9] = .ok (load_buffer machine0 [7, 9]) ∧
    load_game machine0 (List.replicate 3585 0) = .error .indexOutOfBounds := by
  refine ⟨?_, ?_, ?_, ?_⟩
  · simpa using program_load_spec.1 machine0 [7, 9] 0 (by simp) (by omega)
  · exact program_load_spec.2.1 machine0 [7, 9] 300 (Or.inl (by omega))
  · exact program_load_spec.2.2.1 machine0 [7, 9] (by decide)
  · exact program_load_spec.2.2.2 machine0 (List.replicate 3585 0)
      (by rw [List.length_replicate]; omega)

/-- Concrete call `0x2300` at `pc = 0x200` (empty stack). -/
def machineCall : Chip8 :=
  { machine0 with memory := upd (upd machine0.memory 512 0x23) 513 0x00 }

/-- C1 (code bug): executing the subroutine call `0x2300` leaves the program
counter at `0x302` — the target plus 2 — because `goto_address` does not
pre-subtract 2 before the driver's uniform `+2`, unlike `jump_to_address`;
the claim (and the spec's control-flow rule) requires `0x300`. The pushed
return address `0x200` is correct. -/
theorem call_lands_past_target :
    (emulate_cycle machineCall).map Chip8.pc = .ok 770 ∧
    (emulate_cycle machineCall).map Chip8.stack = .ok [512] := by
  exact ⟨rfl, rfl⟩
